import Mathlib

/-!
Shallow embedding of the autogenerated-file exclude processor of
golangci-lint (`pkg/result/processors/autogenerated_exclude.go`).

Strings are modelled as `List Char`; `strings.Contains` becomes
`containsStr`, `strings.ToLower` becomes `toLowerStr` (simple per-character
lowering, which agrees with Go on the ASCII texts involved here), and
`strings.Join(_, "\n")` becomes `List.intercalate [newlineChar]`.

A Go `ast.File` is modelled by the fields the processor reads: the
positions of its import specs (`f.Imports`), its end position (`f.End()`),
and its comment groups, each carrying its start position `g.Pos()`, the
column that `fset.Position(g.Pos())` resolves to, and the resolved text
`g.Text()`.

The `astcache.Cache` dependency is modelled as a pure environment
`AstCache : List Char → ParsedFile` (the real cache memoizes `GetOrParse`,
so within one run it behaves as a function of the path); the processor's
own `fileSummaryCache` map is modelled as an association list threaded
through the calls.  The ghost fields `parsed` / `parsedPaths` record on
which calls `GetOrParse` was actually consulted; they exist only to state
the memoization properties and influence no computed result.
-/

namespace AutogenExclude

/-- Result of parsing one file, as held by the ast cache: the parsed file
data plus whether parsing failed (`f.Err != nil` in the source). -/
structure CommentGroup where
  pos : Nat
  column : Nat
  text : List Char
  deriving DecidableEq

/-- The slice of `ast.File` the processor reads: import spec positions,
end position, and the comment groups with resolved positions and text. -/
structure GoFile where
  importPositions : List Nat
  endPos : Nat
  comments : List CommentGroup
  deriving DecidableEq

/-- One `astcache.File`: `F` together with `Err != nil` as a Boolean. -/
structure ParsedFile where
  err : Bool
  file : GoFile
  deriving DecidableEq

/-- One `result.Issue`, reduced to the fields the processor touches:
`FilePath()` plus enough payload to keep distinct issues distinct. -/
structure Issue where
  filePath : List Char
  line : Nat
  message : List Char
  deriving DecidableEq

/-- The per-file summary cached by the processor (`ageFileSummary`). -/
structure ageFileSummary where
  isGenerated : Bool
  deriving DecidableEq

/-- The processor's `fileSummaryCache` map, as an association list; newer
entries shadow older ones, mirroring map overwrite. -/
abbrev Cache := List (List Char × ageFileSummary)

/-- The shared source cache (`astcache.Cache.GetOrParse`), already
memoized, hence a function of the file path. -/
abbrev AstCache := (List Char → ParsedFile)

/-- The errors `getOrCreateFileSummary` can return: "no file path for
issue" and "cannot parse file". -/
inductive AgeError where
  | noFilePath : AgeError
  | parseError : AgeError
  deriving DecidableEq

/-- Go `strings.Contains s sub`: `sub` occurs contiguously in `s`. -/
def containsStr : List Char → List Char → Bool
  | [], sub => sub.isPrefixOf []
  | a :: t, sub => sub.isPrefixOf (a :: t) || containsStr t sub

/-- Go `strings.ToLower` restricted to simple per-character lowering. -/
def toLowerStr (s : List Char) : List Char :=
  s.map Char.toLower

/-- The newline separator used by `strings.Join(neededComments, "\n")`. -/
def newlineChar : Char := '\n'

/-- Marker `"code generated"` from `isGeneratedFileByComment`. -/
def genCodeGenerated : List Char := "code generated".data

/-- Marker `"do not edit"` from `isGeneratedFileByComment`. -/
def genDoNotEdit : List Char := "do not edit".data

/-- Marker `"autogenerated file"` from `isGeneratedFileByComment`. -/
def genAutoFile : List Char := "autogenerated file".data

/-- The fixed marker set of `isGeneratedFileByComment`. -/
def markers : List (List Char) := [genCodeGenerated, genDoNotEdit, genAutoFile]

/-- `isGeneratedFileByComment doc`: lower-case `doc` and report whether any
marker is contained in it. -/
def isGeneratedFileByComment (doc : List Char) : Bool :=
  let lower := toLowerStr doc
  markers.any (fun marker => containsStr lower marker)

/-- The cgo boilerplate text for go <= 1.10. -/
def cgoOldText : List Char := "Created by cgo".data

/-- The cgo boilerplate text for go >= 1.11. -/
def cgoNewText : List Char := "Code generated by cmd/cgo".data

/-- The `isCgoGenerated` test inside `getDoc`: the comment text contains
one of the compiler-injected cgo boilerplate strings (case-sensitive,
applied to the original text). -/
def isCgoGenerated (text : List Char) : Bool :=
  containsStr text cgoOldText || containsStr text cgoNewText

/-- The cutoff position of `getDoc`: position of the first import when one
exists, otherwise the end of the file. -/
def importPos (f : GoFile) : Nat :=
  match f.importPositions with
  | [] => f.endPos
  | p :: _ => p

/-- The `isAllowed` test of `getDoc` for one comment group: starts strictly
before the cutoff, at column 1, and is not cgo boilerplate. -/
def isAllowedComment (cutoff : Nat) (g : CommentGroup) : Bool :=
  decide (g.pos < cutoff) && decide (g.column = 1) && !(isCgoGenerated g.text)

/-- `getDoc f`: the texts of the allowed comment groups, in source order,
joined by newline; empty when no group is allowed. -/
def getDoc (f : GoFile) : List Char :=
  let cutoff := importPos f
  let neededComments := (f.comments.filter (isAllowedComment cutoff)).map CommentGroup.text
  if neededComments.isEmpty then [] else List.intercalate [newlineChar] neededComments

deriving instance DecidableEq for Except

/-- Lookup in the `fileSummaryCache` association list (Go map read). -/
def cacheFind (c : Cache) (p : List Char) : Option ageFileSummary :=
  match c with
  | [] => none
  | (q, fs) :: rest => if p = q then some fs else cacheFind rest p

/-- Outcome of one `getOrCreateFileSummary` call: the returned summary or
error, the updated `fileSummaryCache`, and the ghost flag telling whether
`astCache.GetOrParse` was invoked during the call. -/
structure GocOut where
  res : Except AgeError ageFileSummary
  cache : Cache
  parsed : Bool
  deriving DecidableEq

/-- `getOrCreateFileSummary`, with the issue reduced to its file path: on a
cache hit return the cached summary; on a miss first insert a zero-value
summary, then fail on an empty path, then consult the ast cache and fail on
a parse error, and only on success store the classification result. -/
def getOrCreateFileSummary (ast : AstCache) (c : Cache) (path : List Char) : GocOut :=
  match cacheFind c path with
  | some fs => ⟨Except.ok fs, c, false⟩
  | none =>
    let c1 : Cache := (path, ⟨false⟩) :: c
    if path = [] then ⟨Except.error AgeError.noFilePath, c1, false⟩
    else
      let f := ast path
      if f.err then ⟨Except.error AgeError.parseError, c1, true⟩
      else
        let fs : ageFileSummary := ⟨isGeneratedFileByComment (getDoc f.file)⟩
        ⟨Except.ok fs, (path, fs) :: c1, true⟩

/-- Outcome of one `shouldPassIssue` call: keep-decision or error, plus the
threaded cache and the ghost parse flag. -/
structure SpiOut where
  res : Except AgeError Bool
  cache : Cache
  parsed : Bool
  deriving DecidableEq

/-- `shouldPassIssue`: propagate any summary error, otherwise keep the
issue iff its file is not generated. -/
def shouldPassIssue (ast : AstCache) (c : Cache) (i : Issue) : SpiOut :=
  let g := getOrCreateFileSummary ast c i.filePath
  match g.res with
  | Except.error e => ⟨Except.error e, g.cache, g.parsed⟩
  | Except.ok fs => ⟨Except.ok (!fs.isGenerated), g.cache, g.parsed⟩

/-- Outcome of one `Process` call: the surviving issues or the first error,
the threaded cache, and the ghost list of paths on which the ast cache was
consulted (possibly with repeats), in evaluation order. -/
structure FilterOut where
  res : Except AgeError (List Issue)
  cache : Cache
  parsedPaths : List (List Char)
  deriving DecidableEq

/-- Modelled from the spec: the body of `filterIssuesErr` is not part of
the sources at hand (only its call site in `Process` is), so it follows the
stated helper semantics — iterate issues in input order, evaluate the
per-issue boolean-or-error predicate, keep issues where the predicate is
true, preserve relative order of kept issues, and abort the whole operation
on the first predicate error.  Specialized to the `shouldPassIssue`
predicate with its threaded summary cache. -/
def filterIssuesErr (ast : AstCache) : Cache → List Issue → FilterOut
  | c, [] => ⟨Except.ok [], c, []⟩
  | c, i :: rest =>
    let s := shouldPassIssue ast c i
    let pp : List (List Char) := if s.parsed then [i.filePath] else []
    match s.res with
    | Except.error e => ⟨Except.error e, s.cache, pp⟩
    | Except.ok keep =>
      let r := filterIssuesErr ast s.cache rest
      match r.res with
      | Except.error e => ⟨Except.error e, r.cache, pp ++ r.parsedPaths⟩
      | Except.ok rest2 =>
        ⟨Except.ok (if keep then i :: rest2 else rest2), r.cache, pp ++ r.parsedPaths⟩

/-- `Process issues`: `filterIssuesErr(issues, p.shouldPassIssue)`. -/
def Process (ast : AstCache) (c : Cache) (issues : List Issue) : FilterOut :=
  filterIssuesErr ast c issues

theorem containsStr_iff (s sub : List Char) : containsStr s sub = true ↔ sub <:+: s := by
  induction s with
  | nil =>
    simp [containsStr, List.isPrefixOf_iff_prefix, List.infix_nil, List.prefix_nil]
  | cons a t ih =>
    simp [containsStr, List.isPrefixOf_iff_prefix, List.infix_cons_iff, ih]

theorem goc_hit (ast : AstCache) (c : Cache) (p : List Char) (fs : ageFileSummary)
    (h : cacheFind c p = some fs) :
    getOrCreateFileSummary ast c p = ⟨Except.ok fs, c, false⟩ := by
  simp [getOrCreateFileSummary, h]

theorem goc_miss_empty (ast : AstCache) (c : Cache)
    (h : cacheFind c [] = none) :
    getOrCreateFileSummary ast c [] =
      ⟨Except.error AgeError.noFilePath, ([], ⟨false⟩) :: c, false⟩ := by
  simp [getOrCreateFileSummary, h]

theorem goc_miss_err (ast : AstCache) (c : Cache) (p : List Char)
    (h : cacheFind c p = none) (hp : p ≠ []) (he : (ast p).err = true) :
    getOrCreateFileSummary ast c p =
      ⟨Except.error AgeError.parseError, (p, ⟨false⟩) :: c, true⟩ := by
  simp [getOrCreateFileSummary, h, hp, he]

theorem goc_miss_ok (ast : AstCache) (c : Cache) (p : List Char)
    (h : cacheFind c p = none) (hp : p ≠ []) (he : (ast p).err = false) :
    getOrCreateFileSummary ast c p =
      ⟨Except.ok ⟨isGeneratedFileByComment (getDoc (ast p).file)⟩,
        (p, ⟨isGeneratedFileByComment (getDoc (ast p).file)⟩) :: (p, ⟨false⟩) :: c, true⟩ := by
  simp [getOrCreateFileSummary, h, hp, he]

theorem goc_parsed_miss (ast : AstCache) (c : Cache) (p : List Char)
    (h : (getOrCreateFileSummary ast c p).parsed = true) : cacheFind c p = none := by
  cases hc : cacheFind c p with
  | none => rfl
  | some fs => rw [goc_hit ast c p fs hc] at h; cases h

theorem cacheFind_goc_self (ast : AstCache) (c : Cache) (p : List Char) :
    (cacheFind (getOrCreateFileSummary ast c p).cache p).isSome = true := by
  cases hc : cacheFind c p with
  | some fs => rw [goc_hit ast c p fs hc]; simp [hc]
  | none =>
    by_cases hp : p = []
    · subst hp; rw [goc_miss_empty ast c hc]; simp [cacheFind]
    · cases he : (ast p).err with
      | true => rw [goc_miss_err ast c p hc hp he]; simp [cacheFind]
      | false => rw [goc_miss_ok ast c p hc hp he]; simp [cacheFind]

theorem cacheFind_goc_other (ast : AstCache) (c : Cache) (p q : List Char) (hq : q ≠ p) :
    cacheFind (getOrCreateFileSummary ast c p).cache q = cacheFind c q := by
  cases hc : cacheFind c p with
  | some fs => rw [goc_hit ast c p fs hc]
  | none =>
    by_cases hp : p = []
    · subst hp; rw [goc_miss_empty ast c hc]; simp [cacheFind, hq]
    · cases he : (ast p).err with
      | true => rw [goc_miss_err ast c p hc hp he]; simp [cacheFind, hq]
      | false => rw [goc_miss_ok ast c p hc hp he]; simp [cacheFind, hq]

theorem cacheFind_goc_mono (ast : AstCache) (c : Cache) (p q : List Char)
    (fs : ageFileSummary) (h : cacheFind c q = some fs) :
    cacheFind (getOrCreateFileSummary ast c p).cache q = some fs := by
  by_cases hq : q = p
  · subst hq; rw [goc_hit ast c q fs h]; exact h
  · rw [cacheFind_goc_other ast c p q hq]; exact h

theorem goc_ok_cached (ast : AstCache) (c : Cache) (p : List Char) (fs : ageFileSummary)
    (h : (getOrCreateFileSummary ast c p).res = Except.ok fs) :
    cacheFind (getOrCreateFileSummary ast c p).cache p = some fs := by
  cases hc : cacheFind c p with
  | some fs0 =>
    rw [goc_hit ast c p fs0 hc] at h ⊢
    simp at h
    rw [hc, h]
  | none =>
    by_cases hp : p = []
    · subst hp; rw [goc_miss_empty ast c hc] at h; simp at h
    · cases he : (ast p).err with
      | true => rw [goc_miss_err ast c p hc hp he] at h; simp at h
      | false =>
        rw [goc_miss_ok ast c p hc hp he] at h ⊢
        simp at h
        simp [cacheFind, h]

theorem spi_fields (ast : AstCache) (c : Cache) (i : Issue) :
    (shouldPassIssue ast c i).cache = (getOrCreateFileSummary ast c i.filePath).cache ∧
    (shouldPassIssue ast c i).parsed = (getOrCreateFileSummary ast c i.filePath).parsed := by
  unfold shouldPassIssue
  cases h : (getOrCreateFileSummary ast c i.filePath).res <;> simp [h]

theorem spi_res_error (ast : AstCache) (c : Cache) (i : Issue) (e : AgeError)
    (h : (getOrCreateFileSummary ast c i.filePath).res = Except.error e) :
    (shouldPassIssue ast c i).res = Except.error e := by
  simp only [shouldPassIssue]
  rw [h]

theorem spi_res_ok (ast : AstCache) (c : Cache) (i : Issue) (fs : ageFileSummary)
    (h : (getOrCreateFileSummary ast c i.filePath).res = Except.ok fs) :
    (shouldPassIssue ast c i).res = Except.ok (!fs.isGenerated) := by
  simp only [shouldPassIssue]
  rw [h]

theorem filter_nil (ast : AstCache) (c : Cache) :
    filterIssuesErr ast c [] = ⟨Except.ok [], c, []⟩ := rfl

theorem filter_cons_error (ast : AstCache) (c : Cache) (i : Issue) (rest : List Issue)
    (e : AgeError) (h : (shouldPassIssue ast c i).res = Except.error e) :
    filterIssuesErr ast c (i :: rest) =
      ⟨Except.error e, (shouldPassIssue ast c i).cache,
        if (shouldPassIssue ast c i).parsed then [i.filePath] else []⟩ := by
  simp only [filterIssuesErr]
  rw [h]

theorem filter_cons_ok_error (ast : AstCache) (c : Cache) (i : Issue) (rest : List Issue)
    (keep : Bool) (e : AgeError)
    (h : (shouldPassIssue ast c i).res = Except.ok keep)
    (h2 : (filterIssuesErr ast (shouldPassIssue ast c i).cache rest).res = Except.error e) :
    filterIssuesErr ast c (i :: rest) =
      ⟨Except.error e, (filterIssuesErr ast (shouldPassIssue ast c i).cache rest).cache,
        (if (shouldPassIssue ast c i).parsed then [i.filePath] else []) ++
          (filterIssuesErr ast (shouldPassIssue ast c i).cache rest).parsedPaths⟩ := by
  simp only [filterIssuesErr]
  rw [h, h2]

theorem filter_cons_ok_ok (ast : AstCache) (c : Cache) (i : Issue) (rest : List Issue)
    (keep : Bool) (rest2 : List Issue)
    (h : (shouldPassIssue ast c i).res = Except.ok keep)
    (h2 : (filterIssuesErr ast (shouldPassIssue ast c i).cache rest).res = Except.ok rest2) :
    filterIssuesErr ast c (i :: rest) =
      ⟨Except.ok (if keep then i :: rest2 else rest2),
        (filterIssuesErr ast (shouldPassIssue ast c i).cache rest).cache,
        (if (shouldPassIssue ast c i).parsed then [i.filePath] else []) ++
          (filterIssuesErr ast (shouldPassIssue ast c i).cache rest).parsedPaths⟩ := by
  simp only [filterIssuesErr]
  rw [h, h2]

theorem filter_res_sublist (ast : AstCache) :
    ∀ (issues : List Issue) (c : Cache) (out : List Issue),
      (filterIssuesErr ast c issues).res = Except.ok out → List.Sublist out issues := by
  intro issues
  induction issues with
  | nil =>
    intro c out h
    rw [filter_nil] at h
    simp at h
    subst h
    exact List.Sublist.refl []
  | cons i rest ih =>
    intro c out h
    cases hs : (shouldPassIssue ast c i).res with
    | error e => rw [filter_cons_error ast c i rest e hs] at h; simp at h
    | ok keep =>
      cases hr : (filterIssuesErr ast (shouldPassIssue ast c i).cache rest).res with
      | error e => rw [filter_cons_ok_error ast c i rest keep e hs hr] at h; simp at h
      | ok rest2 =>
        rw [filter_cons_ok_ok ast c i rest keep rest2 hs hr] at h
        simp at h
        have hsub := ih (shouldPassIssue ast c i).cache rest2 hr
        cases keep with
        | true =>
          simp at h
          subst h
          exact List.Sublist.cons₂ i hsub
        | false =>
          simp at h
          subst h
          exact List.Sublist.cons i hsub

theorem cacheFind_filter_mono (ast : AstCache) :
    ∀ (issues : List Issue) (c : Cache) (q : List Char) (fs : ageFileSummary),
      cacheFind c q = some fs →
      cacheFind (filterIssuesErr ast c issues).cache q = some fs := by
  intro issues
  induction issues with
  | nil => intro c q fs h; rw [filter_nil]; exact h
  | cons i rest ih =>
    intro c q fs h
    have hmono : cacheFind (shouldPassIssue ast c i).cache q = some fs := by
      rw [(spi_fields ast c i).1]
      exact cacheFind_goc_mono ast c i.filePath q fs h
    cases hs : (shouldPassIssue ast c i).res with
    | error e => rw [filter_cons_error ast c i rest e hs]; exact hmono
    | ok keep =>
      cases hr : (filterIssuesErr ast (shouldPassIssue ast c i).cache rest).res with
      | error e =>
        rw [filter_cons_ok_error ast c i rest keep e hs hr]
        exact ih _ q fs hmono
      | ok rest2 =>
        rw [filter_cons_ok_ok ast c i rest keep rest2 hs hr]
        exact ih _ q fs hmono

theorem count_parsedPath_zero (ast : AstCache) (c : Cache) (i : Issue) (p : List Char)
    (hp : (cacheFind c p).isSome = true) :
    List.count p (if (shouldPassIssue ast c i).parsed then [i.filePath] else []) = 0 := by
  cases hparsed : (shouldPassIssue ast c i).parsed with
  | false => simp
  | true =>
    rw [(spi_fields ast c i).2] at hparsed
    have hmiss := goc_parsed_miss ast c i.filePath hparsed
    have hne : i.filePath ≠ p := by
      intro hpe
      rw [← hpe, hmiss] at hp
      cases hp
    simp [List.count_cons, hne]

theorem filter_no_parse (ast : AstCache) :
    ∀ (issues : List Issue) (c : Cache) (p : List Char),
      (cacheFind c p).isSome = true →
      List.count p (filterIssuesErr ast c issues).parsedPaths = 0 := by
  intro issues
  induction issues with
  | nil => intro c p hp; rw [filter_nil]; simp
  | cons i rest ih =>
    intro c p hp
    obtain ⟨fs, hfs⟩ := Option.isSome_iff_exists.mp hp
    have hmono : (cacheFind (shouldPassIssue ast c i).cache p).isSome = true := by
      rw [(spi_fields ast c i).1, cacheFind_goc_mono ast c i.filePath p fs hfs]
      rfl
    cases hs : (shouldPassIssue ast c i).res with
    | error e =>
      rw [filter_cons_error ast c i rest e hs]
      exact count_parsedPath_zero ast c i p hp
    | ok keep =>
      cases hr : (filterIssuesErr ast (shouldPassIssue ast c i).cache rest).res with
      | error e =>
        rw [filter_cons_ok_error ast c i rest keep e hs hr]
        simp only [List.count_append]
        rw [count_parsedPath_zero ast c i p hp, ih _ p hmono]
      | ok rest2 =>
        rw [filter_cons_ok_ok ast c i rest keep rest2 hs hr]
        simp only [List.count_append]
        rw [count_parsedPath_zero ast c i p hp, ih _ p hmono]

theorem filter_parse_once (ast : AstCache) :
    ∀ (issues : List Issue) (c : Cache) (p : List Char),
      List.count p (filterIssuesErr ast c issues).parsedPaths ≤ 1 := by
  intro issues
  induction issues with
  | nil => intro c p; rw [filter_nil]; simp
  | cons i rest ih =>
    intro c p
    have hpp : List.count p (if (shouldPassIssue ast c i).parsed then [i.filePath] else []) ≤ 1 := by
      cases (shouldPassIssue ast c i).parsed
      · simp
      · simp only [if_true, List.count_cons, List.count_nil]
        split <;> simp
    have hrest : ∀ hh : (cacheFind (shouldPassIssue ast c i).cache p).isSome = true,
        List.count p (filterIssuesErr ast (shouldPassIssue ast c i).cache rest).parsedPaths = 0 :=
      fun hh => filter_no_parse ast rest _ p hh
    cases hs : (shouldPassIssue ast c i).res with
    | error e =>
      rw [filter_cons_error ast c i rest e hs]
      exact hpp
    | ok keep =>
      have hsplit :
          List.count p (filterIssuesErr ast c (i :: rest)).parsedPaths =
            List.count p (if (shouldPassIssue ast c i).parsed then [i.filePath] else []) +
              List.count p (filterIssuesErr ast (shouldPassIssue ast c i).cache rest).parsedPaths := by
        cases hr : (filterIssuesErr ast (shouldPassIssue ast c i).cache rest).res with
        | error e =>
          rw [filter_cons_ok_error ast c i rest keep e hs hr]
          simp [List.count_append]
        | ok rest2 =>
          rw [filter_cons_ok_ok ast c i rest keep rest2 hs hr]
          simp [List.count_append]
      rw [hsplit]
      cases hparsed : (shouldPassIssue ast c i).parsed with
      | false =>
        simpa using ih (shouldPassIssue ast c i).cache p
      | true =>
        by_cases hip : i.filePath = p
        · have hsome : (cacheFind (shouldPassIssue ast c i).cache p).isSome = true := by
            rw [(spi_fields ast c i).1, ← hip]
            exact cacheFind_goc_self ast c i.filePath
          rw [hrest hsome]
          simp [List.count_cons, hip]
        · simpa [List.count_cons, hip] using ih (shouldPassIssue ast c i).cache p

theorem filter_fresh_bad_path (ast : AstCache) :
    ∀ (issues : List Issue) (c : Cache) (p : List Char),
      cacheFind c p = none →
      (p = [] ∨ (ast p).err = true) →
      (∃ i ∈ issues, i.filePath = p) →
      ∃ e, (filterIssuesErr ast c issues).res = Except.error e := by
  intro issues
  induction issues with
  | nil => intro c p _ _ hmem; simp at hmem
  | cons i rest ih =>
    intro c p hfind hbad hmem
    have hgocerr : i.filePath = p → ∃ e, (getOrCreateFileSummary ast c p).res = Except.error e := by
      intro _
      by_cases hp : p = []
      · subst hp
        rw [goc_miss_empty ast c hfind]
        exact ⟨AgeError.noFilePath, rfl⟩
      · have herr : (ast p).err = true := by
          cases hbad with
          | inl h => exact absurd h hp
          | inr h => exact h
        rw [goc_miss_err ast c p hfind hp herr]
        exact ⟨AgeError.parseError, rfl⟩
    by_cases hip : i.filePath = p
    · obtain ⟨e, he⟩ := hgocerr hip
      have hspie : (shouldPassIssue ast c i).res = Except.error e := by
        apply spi_res_error
        rw [hip]
        exact he
      rw [filter_cons_error ast c i rest e hspie]
      exact ⟨e, rfl⟩
    · cases hs : (shouldPassIssue ast c i).res with
      | error e =>
        rw [filter_cons_error ast c i rest e hs]
        exact ⟨e, rfl⟩
      | ok keep =>
        have hmem2 : ∃ j ∈ rest, j.filePath = p := by
          obtain ⟨j, hj, hjp⟩ := hmem
          cases hj with
          | head => exact absurd hjp hip
          | tail _ hj2 => exact ⟨j, hj2, hjp⟩
        have hfind2 : cacheFind (shouldPassIssue ast c i).cache p = none := by
          rw [(spi_fields ast c i).1]
          rw [cacheFind_goc_other ast c i.filePath p (fun hq => hip hq.symm)]
          exact hfind
        obtain ⟨e, he⟩ := ih (shouldPassIssue ast c i).cache p hfind2 hbad hmem2
        cases hr : (filterIssuesErr ast (shouldPassIssue ast c i).cache rest).res with
        | error e2 =>
          rw [filter_cons_ok_error ast c i rest keep e2 hs hr]
          exact ⟨e2, rfl⟩
        | ok rest2 => rw [hr] at he; cases he

/-- Spec-side cutoff, following the specification text: the position of the
first import-like declaration if the file has one, otherwise end-of-file.
Stated separately from `importPos` so that `getDoc` can be compared against
the specification wording. -/
def specCutoff (f : GoFile) : Nat :=
  match f.importPositions with
  | [] => f.endPos
  | p :: _ => p

/-- Spec-side eligibility of a comment group, following the specification
text: start position strictly before the cutoff, start column exactly 1,
and text not containing the cgo boilerplate strings. -/
def specEligible (f : GoFile) (g : CommentGroup) : Prop :=
  g.pos < specCutoff f ∧ g.column = 1 ∧
    ¬ cgoOldText <:+: g.text ∧ ¬ cgoNewText <:+: g.text

instance (f : GoFile) (g : CommentGroup) : Decidable (specEligible f g) := by
  unfold specEligible
  infer_instance

/-- Spec-side doc construction: the texts of all eligible comment groups,
in order, separated by newline. -/
def specDoc (f : GoFile) : List Char :=
  List.intercalate [newlineChar]
    ((f.comments.filter fun g => decide (specEligible f g)).map CommentGroup.text)

theorem containsStr_eq_false_iff (s sub : List Char) :
    containsStr s sub = false ↔ ¬ sub <:+: s := by
  rw [← containsStr_iff s sub]
  cases containsStr s sub <;> simp

theorem isAllowedComment_iff (f : GoFile) (g : CommentGroup) :
    isAllowedComment (importPos f) g = true ↔ specEligible f g := by
  simp [isAllowedComment, specEligible, specCutoff, importPos, isCgoGenerated,
    Bool.and_eq_true, Bool.or_eq_true, containsStr_eq_false_iff, and_assoc]

theorem isAllowedComment_eq_decide (f : GoFile) (g : CommentGroup) :
    isAllowedComment (importPos f) g = decide (specEligible f g) := by
  by_cases h : specEligible f g
  · rw [(isAllowedComment_iff f g).mpr h]
    simp [h]
  · have h2 : isAllowedComment (importPos f) g = false := by
      cases hh : isAllowedComment (importPos f) g
      · rfl
      · exact absurd ((isAllowedComment_iff f g).mp hh) h
    rw [h2]
    simp [h]

theorem getDoc_eq_specDoc (f : GoFile) : getDoc f = specDoc f := by
  simp only [getDoc, specDoc]
  rw [List.filter_congr (fun g _ => isAllowedComment_eq_decide f g)]
  cases hL : (f.comments.filter fun g => decide (specEligible f g)).map CommentGroup.text with
  | nil => simp [List.intercalate]
  | cons a t => simp

theorem getDoc_empty_of_no_eligible (f : GoFile)
    (h : ∀ g ∈ f.comments, ¬ specEligible f g) : getDoc f = [] := by
  rw [getDoc_eq_specDoc]
  unfold specDoc
  have hfil : (f.comments.filter fun g => decide (specEligible f g)) = [] :=
    List.filter_eq_nil_iff.mpr (fun g hg => by simpa using h g hg)
  rw [hfil]
  rfl

/-- Concrete fixture: a file whose leading unindented pre-import comment is
the protoc-gen-go header. -/
def genFile : GoFile :=
  ⟨[100], 200, [⟨1, 1, "Code generated by protoc-gen-go. DO NOT EDIT.".data⟩]⟩

/-- Concrete fixture: a hand-written file with an ordinary leading comment. -/
def handFile : GoFile := ⟨[100], 200, [⟨1, 1, "package docs".data⟩]⟩

/-- Concrete fixture: a file whose only comment is the go <= 1.10 cgo
boilerplate, at column 1 before the first import. -/
def cgoFile : GoFile := ⟨[50], 100, [⟨1, 1, "Created by cgo - DO NOT EDIT".data⟩]⟩

/-- Concrete fixture: like `cgoFile` but with the boilerplate text upper-cased. -/
def upperCgoFile : GoFile := ⟨[50], 100, [⟨1, 1, "CREATED BY CGO - DO NOT EDIT".data⟩]⟩

/-- Concrete fixture: a file with no imports and no comments. -/
def emptyFile : GoFile := ⟨[], 0, []⟩

/-- Concrete ast-cache environment used by the scenario theorems. -/
def astEx : AstCache := fun p =>
  if p = "gen.go".data then ⟨false, genFile⟩
  else if p = "hand.go".data then ⟨false, handFile⟩
  else if p = "cgo_wrap.go".data then ⟨false, cgoFile⟩
  else if p = "bad.go".data then ⟨true, emptyFile⟩
  else ⟨false, emptyFile⟩

/-- First issue on the generated file. -/
def issueGen1 : Issue := ⟨"gen.go".data, 3, "m1".data⟩

/-- Second issue on the generated file. -/
def issueGen2 : Issue := ⟨"gen.go".data, 7, "m2".data⟩

/-- Issue on the hand-written file. -/
def issueHand : Issue := ⟨"hand.go".data, 4, "m3".data⟩

/-- Issue on the cgo file. -/
def issueCgo : Issue := ⟨"cgo_wrap.go".data, 5, "m4".data⟩

/-- Issue on the unparsable file. -/
def issueBad : Issue := ⟨"bad.go".data, 6, "m5".data⟩

/-- Issue with an empty file path. -/
def issueEmptyPath : Issue := ⟨[], 1, "m6".data⟩

/-- Counterexample to claim C1 as stated: after a first Process call has
errored on the empty path (caching the zero-value summary), a second
Process call of the same instance reaches the same empty-path issue, yet
returns the issue as kept instead of an error. -/
theorem c1_counterexample :
    (Process astEx [] [issueEmptyPath]).res = Except.error AgeError.noFilePath ∧
    (Process astEx (Process astEx [] [issueEmptyPath]).cache [issueEmptyPath]).res =
      Except.ok [issueEmptyPath] := by
  exact ⟨by decide, by decide⟩

/-- Claim C1 (amended): a Process call whose issue list contains an issue
with an empty file path returns an error, provided the empty path is not
yet in the instance's file-summary cache (as on the first call that
reaches it). -/
theorem c1_empty_path_fresh_errors :
    ∀ (ast : AstCache) (c : Cache) (issues : List Issue),
      cacheFind c [] = none →
      (∃ i ∈ issues, i.filePath = []) →
      ∃ e, (Process ast c issues).res = Except.error e := by
  intro ast c issues h hmem
  exact filter_fresh_bad_path ast issues c [] h (Or.inl rfl) hmem

/-- Witness for claim C1's amended theorem at a concrete input. -/
theorem c1_witness :
    cacheFind ([] : Cache) [] = none ∧
    ∃ e, (Process astEx [] [issueEmptyPath]).res = Except.error e :=
  ⟨rfl, c1_empty_path_fresh_errors astEx [] [issueEmptyPath] rfl
    ⟨issueEmptyPath, by decide, rfl⟩⟩

/-- Counterexample to claim C2 as stated: after a first Process call has
errored on the unparsable file (caching the zero-value summary), a second
Process call of the same instance reaches an issue on the same file, yet
returns the issue as kept instead of an error. -/
theorem c2_counterexample :
    (Process astEx [] [issueBad]).res = Except.error AgeError.parseError ∧
    (Process astEx (Process astEx [] [issueBad]).cache [issueBad]).res =
      Except.ok [issueBad] := by
  exact ⟨by decide, by decide⟩

/-- Claim C2 (amended): a Process call whose issue list contains an issue
on a file whose ParsedFile carries a parse error returns an error, provided
that path is not yet in the instance's file-summary cache (as on the first
call that reaches it). -/
theorem c2_parse_error_fresh_errors :
    ∀ (ast : AstCache) (c : Cache) (issues : List Issue) (p : List Char),
      cacheFind c p = none →
      (ast p).err = true →
      (∃ i ∈ issues, i.filePath = p) →
      ∃ e, (Process ast c issues).res = Except.error e := by
  intro ast c issues p h he hmem
  exact filter_fresh_bad_path ast issues c p h (Or.inr he) hmem

/-- Witness for claim C2's amended theorem at a concrete input. -/
theorem c2_witness :
    (astEx "bad.go".data).err = true ∧
    ∃ e, (Process astEx [] [issueBad]).res = Except.error e :=
  ⟨by decide, c2_parse_error_fresh_errors astEx [] [issueBad] "bad.go".data rfl
    (by decide) ⟨issueBad, by decide, rfl⟩⟩

/-- Claim C3: when getOrCreateFileSummary fails for a fresh path (empty
path or parse error), the zero-value summary remains in the cache, and
every later shouldPassIssue call of the same instance with an issue bearing
that path returns the issue as kept (ok true) with no further parse and no
second error; arbitrary intervening filtering work is allowed. -/
theorem c3_failed_summary_cached :
    ∀ (ast : AstCache) (c : Cache) (p : List Char),
      cacheFind c p = none →
      (p = [] ∨ (ast p).err = true) →
      (∃ e, (getOrCreateFileSummary ast c p).res = Except.error e) ∧
      cacheFind (getOrCreateFileSummary ast c p).cache p = some ⟨false⟩ ∧
      ∀ (later : List Issue) (j : Issue), j.filePath = p →
        (shouldPassIssue ast
            (filterIssuesErr ast (getOrCreateFileSummary ast c p).cache later).cache j).res =
          Except.ok true ∧
        (shouldPassIssue ast
            (filterIssuesErr ast (getOrCreateFileSummary ast c p).cache later).cache j).parsed =
          false := by
  intro ast c p h hbad
  have hcache : cacheFind (getOrCreateFileSummary ast c p).cache p = some ⟨false⟩ ∧
      ∃ e, (getOrCreateFileSummary ast c p).res = Except.error e := by
    by_cases hp : p = []
    · subst hp
      rw [goc_miss_empty ast c h]
      exact ⟨by simp [cacheFind], ⟨AgeError.noFilePath, rfl⟩⟩
    · have he : (ast p).err = true := hbad.resolve_left hp
      rw [goc_miss_err ast c p h hp he]
      exact ⟨by simp [cacheFind], ⟨AgeError.parseError, rfl⟩⟩
  refine ⟨hcache.2, hcache.1, ?_⟩
  intro later j hj
  have hpersist := cacheFind_filter_mono ast later _ p ⟨false⟩ hcache.1
  have hgoc := goc_hit ast (filterIssuesErr ast (getOrCreateFileSummary ast c p).cache later).cache
    j.filePath ⟨false⟩ (by rw [hj]; exact hpersist)
  constructor
  · have hok := spi_res_ok ast _ j ⟨false⟩ (by rw [hgoc])
    simpa using hok
  · rw [(spi_fields ast _ j).2, hgoc]

/-- Witness for claim C3's theorem at a concrete input. -/
theorem c3_witness :
    cacheFind ([] : Cache) "bad.go".data = none ∧
    (shouldPassIssue astEx
        (filterIssuesErr astEx (getOrCreateFileSummary astEx [] "bad.go".data).cache
          [issueHand]).cache issueBad).res = Except.ok true :=
  ⟨rfl, ((c3_failed_summary_cached astEx [] "bad.go".data rfl
    (Or.inr (by decide))).2.2 [issueHand] issueBad rfl).1⟩

/-- Claim C4: the doc string getDoc builds is exactly the concatenation, in
source order and separated by newline, of the comment groups satisfying the
three spec-side eligibility conditions; when no comment group is eligible
the doc is empty and the file classifies as not generated. -/
theorem c4_getDoc_eligible :
    ∀ f : GoFile,
      getDoc f = specDoc f ∧
      ((∀ g ∈ f.comments, ¬ specEligible f g) →
        getDoc f = [] ∧ isGeneratedFileByComment (getDoc f) = false) := by
  intro f
  refine ⟨getDoc_eq_specDoc f, ?_⟩
  intro h
  have hempty := getDoc_empty_of_no_eligible f h
  refine ⟨hempty, ?_⟩
  rw [hempty]
  rfl

/-- Witness for claim C4's theorem at a concrete input. -/
theorem c4_witness :
    (∀ g ∈ cgoFile.comments, ¬ specEligible cgoFile g) ∧ getDoc cgoFile = [] :=
  ⟨by decide, ((c4_getDoc_eligible cgoFile).2 (by decide)).1⟩

/-- Claim C5: the classifier reports a doc string as generated iff the
lower-cased doc contains one of the three marker substrings anywhere; the
MockGen header classifies as generated and a hand-written note does not. -/
theorem c5_marker_containment :
    (∀ doc : List Char,
      isGeneratedFileByComment doc = true ↔
        ("code generated".data <:+: toLowerStr doc ∨
          "do not edit".data <:+: toLowerStr doc ∨
          "autogenerated file".data <:+: toLowerStr doc)) ∧
    isGeneratedFileByComment "// Code Generated By MockGen. DO NOT EDIT.".data = true ∧
    isGeneratedFileByComment "// hand-written, please edit".data = false := by
  refine ⟨?_, by decide, by decide⟩
  intro doc
  simp [isGeneratedFileByComment, markers, genCodeGenerated, genDoNotEdit, genAutoFile,
    containsStr_iff]

/-- Witness for claim C5's theorem at a concrete input. -/
theorem c5_witness :
    isGeneratedFileByComment "x do not edit y".data = true :=
  (c5_marker_containment.1 "x do not edit y".data).mpr (Or.inr (Or.inl (by decide)))

/-- Claim C6: a file whose comments are all cgo boilerplate (in particular
one whose only column-1 pre-import comment is the boilerplate text)
classifies as not generated even though the text contains a marker, and its
issues survive the processor. -/
theorem c6_cgo_only_not_generated :
    ∀ f : GoFile,
      (∀ g ∈ f.comments, isCgoGenerated g.text = true) →
      isGeneratedFileByComment (getDoc f) = false ∧
      ∀ (ast : AstCache) (c : Cache) (i : Issue),
        i.filePath ≠ [] → cacheFind c i.filePath = none → ast i.filePath = ⟨false, f⟩ →
        (shouldPassIssue ast c i).res = Except.ok true ∧
        (Process ast c [i]).res = Except.ok [i] := by
  intro f hcgo
  have hdoc : getDoc f = [] := by
    simp only [getDoc]
    have hfil : f.comments.filter (isAllowedComment (importPos f)) = [] := by
      apply List.filter_eq_nil_iff.mpr
      intro g hg
      simp [isAllowedComment, hcgo g hg]
    rw [hfil]
    rfl
  have hgen : isGeneratedFileByComment (getDoc f) = false := by rw [hdoc]; rfl
  refine ⟨hgen, ?_⟩
  intro ast c i hne hfind hast
  have herr : (ast i.filePath).err = false := by rw [hast]
  have hgoc := goc_miss_ok ast c i.filePath hfind hne herr
  rw [hast] at hgoc
  simp only [hgen] at hgoc
  have hspi : (shouldPassIssue ast c i).res = Except.ok true := by
    have hok := spi_res_ok ast c i ⟨false⟩ (by rw [hgoc])
    simpa using hok
  refine ⟨hspi, ?_⟩
  simp only [Process]
  rw [filter_cons_ok_ok ast c i [] true [] hspi (by rw [filter_nil])]
  simp

/-- Witness for claim C6's theorem at a concrete input. -/
theorem c6_witness :
    (∀ g ∈ cgoFile.comments, isCgoGenerated g.text = true) ∧
    (Process astEx [] [issueCgo]).res = Except.ok [issueCgo] :=
  ⟨by decide, ((c6_cgo_only_not_generated cgoFile (by decide)).2 astEx [] issueCgo
    (by decide) rfl (by decide)).2⟩

/-- Claim C7: across any Process run of one instance the ast cache is
consulted at most once per path, and once a summary call has succeeded,
repeating it on the resulting cache returns the same summary without a
parse. -/
theorem c7_classification_memoized :
    (∀ (ast : AstCache) (c : Cache) (issues : List Issue) (p : List Char),
      List.count p (Process ast c issues).parsedPaths ≤ 1) ∧
    (∀ (ast : AstCache) (c : Cache) (p : List Char) (fs : ageFileSummary),
      (getOrCreateFileSummary ast c p).res = Except.ok fs →
      (getOrCreateFileSummary ast (getOrCreateFileSummary ast c p).cache p).res =
        Except.ok fs ∧
      (getOrCreateFileSummary ast (getOrCreateFileSummary ast c p).cache p).parsed =
        false) := by
  constructor
  · intro ast c issues p
    exact filter_parse_once ast issues c p
  · intro ast c p fs h
    have hcached := goc_ok_cached ast c p fs h
    rw [goc_hit ast (getOrCreateFileSummary ast c p).cache p fs hcached]
    exact ⟨rfl, rfl⟩

/-- Witness for claim C7's theorem at a concrete input. -/
theorem c7_witness :
    (getOrCreateFileSummary astEx [] "gen.go".data).res = Except.ok ⟨true⟩ ∧
    (getOrCreateFileSummary astEx
        (getOrCreateFileSummary astEx [] "gen.go".data).cache "gen.go".data).parsed = false :=
  ⟨by decide,
    (c7_classification_memoized.2 astEx [] "gen.go".data ⟨true⟩ (by decide)).2⟩

/-- Claim C8: for an issue with a non-empty, parsable, not-yet-cached file
path, shouldPassIssue keeps the issue iff the file classifies as not
generated; concretely, both issues on the protoc-gen-go file are dropped. -/
theorem c8_keep_iff_not_generated :
    (∀ (ast : AstCache) (c : Cache) (i : Issue) (b : Bool),
      i.filePath ≠ [] → cacheFind c i.filePath = none → (ast i.filePath).err = false →
      ((shouldPassIssue ast c i).res = Except.ok b ↔
        b = !isGeneratedFileByComment (getDoc (ast i.filePath).file))) ∧
    (Process astEx [] [issueGen1, issueGen2]).res = Except.ok [] := by
  constructor
  · intro ast c i b hne hfind herr
    have hgoc := goc_miss_ok ast c i.filePath hfind hne herr
    have hspi := spi_res_ok ast c i ⟨isGeneratedFileByComment (getDoc (ast i.filePath).file)⟩
      (by rw [hgoc])
    rw [hspi]
    constructor
    · intro hh
      exact (Except.ok.inj hh).symm
    · intro hh
      rw [hh]
  · decide

/-- Witness for claim C8's theorem at a concrete input. -/
theorem c8_witness :
    issueHand.filePath ≠ [] ∧ (shouldPassIssue astEx [] issueHand).res = Except.ok true :=
  ⟨by decide, (c8_keep_iff_not_generated.1 astEx [] issueHand true (by decide) rfl
    (by decide)).mpr (by decide)⟩

/-- Claim C9: a successful Process call returns a subsequence of its input
(unmodified issues in their original relative order), the call aborts with
the first per-issue predicate error, and the mixed scenario keeps exactly
the hand-written file's issue. -/
theorem c9_process_subsequence :
    (∀ (ast : AstCache) (c : Cache) (issues out : List Issue),
      (Process ast c issues).res = Except.ok out → List.Sublist out issues) ∧
    (∀ (ast : AstCache) (c : Cache) (i : Issue) (rest : List Issue) (e : AgeError),
      (shouldPassIssue ast c i).res = Except.error e →
      (Process ast c (i :: rest)).res = Except.error e) ∧
    (Process astEx [] [issueGen1, issueHand]).res = Except.ok [issueHand] := by
  refine ⟨?_, ?_, by decide⟩
  · intro ast c issues out h
    exact filter_res_sublist ast issues c out h
  · intro ast c i rest e h
    simp only [Process]
    rw [filter_cons_error ast c i rest e h]

/-- Witness for claim C9's theorem at a concrete input. -/
theorem c9_witness :
    (Process astEx [] [issueCgo, issueHand]).res = Except.ok [issueCgo, issueHand] ∧
    List.Sublist [issueCgo, issueHand] [issueCgo, issueHand] :=
  ⟨by decide, c9_process_subsequence.1 astEx [] [issueCgo, issueHand]
    [issueCgo, issueHand] (by decide)⟩

/-- Claim C10: the cgo exclusion compares the original comment text
case-sensitively while marker matching is case-insensitive: the upper-cased
boilerplate is not excluded, ends up as the whole doc, and makes the file
classify as generated via the lower-cased "do not edit" marker. -/
theorem c10_cgo_case_sensitive :
    isCgoGenerated "CREATED BY CGO - DO NOT EDIT".data = false ∧
    isCgoGenerated "Created by cgo - DO NOT EDIT".data = true ∧
    getDoc upperCgoFile = "CREATED BY CGO - DO NOT EDIT".data ∧
    containsStr (toLowerStr (getDoc upperCgoFile)) genDoNotEdit = true ∧
    isGeneratedFileByComment (getDoc upperCgoFile) = true := by
  exact ⟨by decide, by decide, by decide, by decide, by decide⟩

end AutogenExclude
